import Mathlib

/-!
Shallow embedding of the Early-Stopping repository.

Source files embedded here:
- `proximal_early_stopping.py` : `l1_proximal`, `ProximalEarlyStopping.fit`
- `dp_early_stopping.py`       : `DPSGDEarlyStopping.fit`
- `fairness_early_stopping.py` : `group_error_rates`,
  `demographic_parity_difference`, `FairnessEarlyStopping.step`
- `component_early_stopping.py`: `ComponentEarlyStopping.apply` / `reset`

Modelling conventions:
- numpy float64 vectors are modelled as `List ℚ` (exact rational
  idealization of the float arithmetic);
- `np.inf` as the initial best metric is modelled as `none : Option ℚ`;
- a Python `NameError` (reading the loop variable `t` after a loop whose
  body never ran, i.e. `max_iter = 0`) is modelled by returning `none`;
- the ambient global RNG draw `np.random.normal(...)` of the DP-SGD loop
  is modelled by an explicit stream `noise : ℕ → List ℚ` of realized
  draws (the code itself offers no seed parameter; the stream stands for
  whatever the process-wide RNG produced at each iteration);
- comparisons of Euclidean norms (`np.linalg.norm`, `Tensor.norm`) are
  decided by exact rational procedures (`normSqLt`, `relChangeLtTol`)
  proved equivalent to the real-number statements (`normSqLt_iff`,
  `relChangeLtTol_iff`).
-/

namespace EarlyStopping

/-- Vectors are lists of rationals (numpy 1-D float arrays). -/
abbrev Vec := List ℚ

/-- Componentwise subtraction, numpy `a - b` (shapes assumed equal). -/
def vsub (a b : Vec) : Vec := List.zipWith (· - ·) a b

/-- Componentwise addition, numpy `a + b`. -/
def vadd (a b : Vec) : Vec := List.zipWith (· + ·) a b

/-- Scalar multiplication, numpy `c * a`. -/
def smul (c : ℚ) (a : Vec) : Vec := a.map (fun t => c * t)

/-- Dot product `np.dot a b`. -/
def dot (a b : Vec) : ℚ := (List.zipWith (· * ·) a b).sum

/-- Sum of squares of the entries: the square of the Euclidean norm
`np.linalg.norm v` (the norm itself is irrational in general, so norm
comparisons are decided on this square). -/
def sumSq (v : Vec) : ℚ := (v.map (fun t => t * t)).sum

/-- Matrix (list of rows) times vector, numpy `A @ x`. -/
def matVec (A : List Vec) (x : Vec) : Vec := A.map (fun row => dot row x)

/-- Transposed matrix times vector, numpy `A.T @ v` = Σᵢ vᵢ · rowᵢ. -/
def matTVec (A : List Vec) (v : Vec) (n : ℕ) : Vec :=
  (List.zipWith smul v A).foldr vadd (List.replicate n 0)

/-- numpy `np.sign` on a scalar. -/
def qsign (a : ℚ) : ℚ := if 0 < a then 1 else if a < 0 then -1 else 0

/-- Source `l1_proximal` (proximal_early_stopping.py:33-48):
`np.sign(x) * np.maximum(np.abs(x) - threshold, 0.0)`, componentwise. -/
def l1_proximal (x : Vec) (threshold : ℚ) : Vec :=
  x.map (fun xi => qsign xi * max (|xi| - threshold) 0)

/-- Scalar soft-threshold at 0 is the identity. -/
lemma soft_zero (a : ℚ) : qsign a * max (|a| - 0) 0 = a := by
  unfold qsign
  rcases lt_trichotomy 0 a with h | h | h
  · rw [if_pos h, abs_of_pos h, sub_zero, max_eq_left (le_of_lt h), one_mul]
  · simp [← h]
  · rw [if_neg (by linarith), if_pos h, abs_of_neg h, sub_zero,
      max_eq_left (by linarith), neg_one_mul, neg_neg]

/-- Scalar soft-threshold shrinks in absolute value. -/
lemma soft_abs_le (a t : ℚ) (ht : 0 ≤ t) :
    |qsign a * max (|a| - t) 0| ≤ |a| := by
  unfold qsign
  rcases lt_trichotomy 0 a with h | h | h
  · rw [if_pos h, abs_of_pos h, one_mul]
    rcases le_total (a - t) 0 with h2 | h2
    · rw [max_eq_right h2, abs_zero]; linarith
    · rw [max_eq_left h2, abs_of_nonneg h2]; linarith
  · simp [← h]
  · rw [if_neg (by linarith), if_pos h, abs_of_neg h, neg_one_mul]
    rcases le_total (-a - t) 0 with h2 | h2
    · rw [max_eq_right h2, neg_zero, abs_zero]; linarith
    · rw [max_eq_left h2, abs_of_nonpos (by linarith), neg_neg]; linarith

/-- Scalar soft-threshold: the result is zero or keeps the sign. -/
lemma soft_sign (a t : ℚ) (ht : 0 ≤ t) :
    qsign a * max (|a| - t) 0 = 0 ∨
    qsign (qsign a * max (|a| - t) 0) = qsign a := by
  rcases lt_trichotomy (|a| - t) 0 with h2 | h2 | h2
  · left; rw [max_eq_right (le_of_lt h2), mul_zero]
  · left; rw [h2, max_self, mul_zero]
  · right
    rw [max_eq_left (le_of_lt h2)]
    rcases lt_trichotomy 0 a with h | h | h
    · have hq : qsign a = 1 := by unfold qsign; rw [if_pos h]
      rw [hq, one_mul]
      unfold qsign
      rw [if_pos h2]
    · exfalso; rw [← h, abs_zero] at h2; linarith
    · have hq : qsign a = -1 := by
        unfold qsign; rw [if_neg (by linarith), if_pos h]
      rw [hq, neg_one_mul]
      unfold qsign
      rw [if_neg (by linarith), if_pos (by linarith)]

/-- Zipping a mapped list with the original pairs each image with its
preimage. -/
lemma zip_map_self (f : ℚ → ℚ) (l : List ℚ) :
    List.zip (l.map f) l = l.map (fun a => (f a, a)) := by
  induction l with
  | nil => rfl
  | cons a l ih => simp [ih]

/-- C4: `l1_proximal` at threshold 0 is the identity; for every
threshold `t ≥ 0` each output component is no larger in absolute value
than the input component and is either zero or of the same sign (the
components are paired by `List.zip`). -/
theorem l1_proximal_spec (x : Vec) (t : ℚ) (ht : 0 ≤ t) :
    l1_proximal x 0 = x ∧
    ∀ p ∈ List.zip (l1_proximal x t) x,
      |p.1| ≤ |p.2| ∧ (p.1 = 0 ∨ qsign p.1 = qsign p.2) := by
  constructor
  · unfold l1_proximal
    have h : x.map (fun xi => qsign xi * max (|xi| - 0) 0) = x.map id :=
      List.map_congr_left (fun a _ => soft_zero a)
    simpa using h
  · intro p hp
    unfold l1_proximal at hp
    rw [zip_map_self, List.mem_map] at hp
    obtain ⟨a, _, rfl⟩ := hp
    exact ⟨soft_abs_le a t ht, soft_sign a t ht⟩

/-- Witness for C4 at the concrete input x = [3, -2, 1/4, 0], t = 1/2. -/
theorem l1_proximal_spec_witness :
    (0:ℚ) ≤ 1/2 ∧
    (l1_proximal [3, -2, 1/4, 0] 0 = [3, -2, 1/4, 0] ∧
     ∀ p ∈ List.zip (l1_proximal [3, -2, 1/4, 0] (1/2)) [3, -2, 1/4, 0],
       |p.1| ≤ |p.2| ∧ (p.1 = 0 ∨ qsign p.1 = qsign p.2)) :=
  ⟨by norm_num, l1_proximal_spec [3, -2, 1/4, 0] (1/2) (by norm_num)⟩

/-- Mutable state of `FairnessEarlyStopping`
(fairness_early_stopping.py:97-100): `best_metric` (`np.inf` initially,
modelled as `none`), `num_bad_epochs`, `stopped_epoch`. -/
structure FESState where
  bestMetric : Option ℚ
  numBadEpochs : ℕ
  stoppedEpoch : Option ℕ
deriving DecidableEq

/-- State set up by `__post_init__`. -/
def fesInit : FESState := ⟨none, 0, none⟩

/-- The improvement test of line 124,
`metric_value + self.min_delta < self.best_metric`; a `none` best
(`np.inf`) is beaten by every finite value. -/
def improvesB (minDelta : ℚ) (value : ℚ) (best : Option ℚ) : Bool :=
  match best with
  | none => true
  | some b => decide (value + minDelta < b)

/-- Source `FairnessEarlyStopping.step` (fairness_early_stopping.py:
102-136) with the already-computed metric value as input: update
`best_metric`/`num_bad_epochs`, then stop iff
`num_bad_epochs >= patience`, recording `stopped_epoch`. -/
def fesStep (minDelta : ℚ) (patience : ℕ) (epoch : ℕ) (value : ℚ)
    (st : FESState) : FESState × Bool :=
  let st1 :=
    if improvesB minDelta value st.bestMetric then
      { st with bestMetric := some value, numBadEpochs := 0 }
    else { st with numBadEpochs := st.numBadEpochs + 1 }
  if patience ≤ st1.numBadEpochs then
    ({ st1 with stoppedEpoch := some epoch }, true)
  else (st1, false)

/-- Feeding a sequence of metric values into successive `step` calls,
collecting after each call the controller state and the returned stop
flag. -/
def fesRun (minDelta : ℚ) (patience : ℕ) :
    ℕ → FESState → List ℚ → List (FESState × Bool)
  | _, _, [] => []
  | e, st, v :: vs =>
    let r := fesStep minDelta patience e v st
    r :: fesRun minDelta patience (e + 1) r.1 vs

/-- On a strictly decreasing signal every step improves: bad count
stays 0 and no stop is emitted (invariant-strengthened form). -/
lemma fes_decreasing_aux (p : ℕ) (hp : 1 ≤ p) :
    ∀ (vs : List ℚ), List.Chain' (· > ·) vs → ∀ (e : ℕ) (st : FESState),
      st.numBadEpochs = 0 →
      (∀ b, st.bestMetric = some b → ∀ v0 ∈ vs.head?, v0 < b) →
      ∀ r ∈ fesRun 0 p e st vs, r.1.numBadEpochs = 0 ∧ r.2 = false := by
  intro vs
  induction vs with
  | nil => intro _ e st _ _ r hr; simp [fesRun] at hr
  | cons v vs ih =>
    intro hchain e st hbad hbest r hr
    rw [List.chain'_cons'] at hchain
    have himp : improvesB 0 v st.bestMetric = true := by
      unfold improvesB
      cases hb : st.bestMetric with
      | none => rfl
      | some b =>
        have := hbest b hb v (by simp)
        simp only [decide_eq_true_eq]
        linarith
    have hstep : fesStep 0 p e v st =
        ({ st with bestMetric := some v, numBadEpochs := 0 }, false) := by
      unfold fesStep
      rw [himp, if_pos rfl, if_neg (show ¬ p ≤ 0 by omega)]
    rw [fesRun, hstep] at hr
    rcases List.mem_cons.mp hr with h | h
    · rw [h]; exact ⟨rfl, rfl⟩
    · exact ih hchain.2 (e + 1)
        { st with bestMetric := some v, numBadEpochs := 0 } rfl
        (by
          intro b hb v0 hv0
          cases hb
          exact hchain.1 v0 hv0) r h

/-- On a constant signal from a state whose best already equals the
signal, each step is non-improving: the k-th output (0-indexed) is the
stop flag `patience ≤ bad + k + 1`. -/
lemma fes_const_aux (p : ℕ) (c : ℚ) :
    ∀ (m e k : ℕ) (se : Option ℕ),
      (fesRun 0 p e ⟨some c, k, se⟩ (List.replicate m c)).map Prod.snd =
        (List.range m).map (fun j => decide (p ≤ k + j + 1)) := by
  intro m
  induction m with
  | zero => intro e k se; rfl
  | succ m ih =>
    intro e k se
    have hni : improvesB 0 c (some c) = false := by
      unfold improvesB; simp
    rw [List.replicate_succ, fesRun]
    have hst1 : (if improvesB 0 c (FESState.mk (some c) k se).bestMetric
          then { FESState.mk (some c) k se with
                   bestMetric := some c, numBadEpochs := 0 }
          else { FESState.mk (some c) k se with
                   numBadEpochs := k + 1 }) = FESState.mk (some c) (k + 1) se := by
      rw [show (FESState.mk (some c) k se).bestMetric = some c from rfl, hni]
      simp
    by_cases hk : p ≤ k + 1
    · have hstep : fesStep 0 p e c ⟨some c, k, se⟩ =
          (⟨some c, k + 1, some e⟩, true) := by
        unfold fesStep
        rw [hst1, if_pos hk]
      rw [hstep, List.map_cons, ih (e + 1) (k + 1) (some e),
        List.range_succ_eq_map, List.map_cons, List.map_map]
      congr 1
      · simp [hk]
      · exact List.map_congr_left fun j _ => by
          simp only [Function.comp]
          rw [show k + 1 + j + 1 = k + (j + 1) + 1 from by omega]
    · have hstep : fesStep 0 p e c ⟨some c, k, se⟩ =
          (⟨some c, k + 1, se⟩, false) := by
        unfold fesStep
        rw [hst1, if_neg hk]
      rw [hstep, List.map_cons, ih (e + 1) (k + 1) se,
        List.range_succ_eq_map, List.map_cons, List.map_map]
      congr 1
      · simp [hk]
      · exact List.map_congr_left fun j _ => by
          simp only [Function.comp]
          rw [show k + 1 + j + 1 = k + (j + 1) + 1 from by omega]

/-- C1: with `min_delta = 0` and `patience = p ≥ 1`: on every strictly
decreasing metric sequence the bad count stays 0 after every step and
`step` never returns true; on a constant sequence of length `p + 1` the
stop flag at index `i ≤ p` is true exactly for `i = p`, i.e. the first
value establishes `best` at index 0 and the stop fires at the
`(p-1)`-th (0-indexed) step after it, and at no earlier step. -/
theorem fairness_new_best_policy (p : ℕ) (hp : 1 ≤ p) :
    (∀ (vs : List ℚ) (e : ℕ), List.Chain' (· > ·) vs →
      ∀ r ∈ fesRun 0 p e fesInit vs, r.1.numBadEpochs = 0 ∧ r.2 = false) ∧
    (∀ (c : ℚ) (e i : ℕ), i ≤ p →
      ((fesRun 0 p e fesInit (List.replicate (p + 1) c)).map Prod.snd).getD
          i false = decide (i = p)) := by
  constructor
  · intro vs e hchain r hr
    exact fes_decreasing_aux p hp vs hchain e fesInit rfl
      (by intro b hb; cases hb) r hr
  · intro c e i hi
    have hstep : fesStep 0 p e c fesInit = (⟨some c, 0, none⟩, false) := by
      unfold fesStep fesInit improvesB
      rw [if_pos rfl, if_neg (show ¬ p ≤ 0 by omega)]
    rw [List.replicate_succ, fesRun, hstep, List.map_cons,
      fes_const_aux p c p (e + 1) 0 none]
    cases i with
    | zero =>
      rw [List.getD_cons_zero, eq_comm, decide_eq_false_iff_not]
      omega
    | succ i =>
      rw [List.getD_cons_succ]
      have hlen : i < ((List.range p).map
          (fun j => decide (p ≤ 0 + j + 1))).length := by
        simp; omega
      rw [List.getD_eq_getElem _ _ hlen, List.getElem_map, List.getElem_range]
      exact decide_eq_decide.mpr (by omega)

/-- Witness for C1 at patience 2. -/
theorem fairness_new_best_policy_witness :
    1 ≤ 2 ∧
    ((∀ (vs : List ℚ) (e : ℕ), List.Chain' (· > ·) vs →
      ∀ r ∈ fesRun 0 2 e fesInit vs, r.1.numBadEpochs = 0 ∧ r.2 = false) ∧
    (∀ (c : ℚ) (e i : ℕ), i ≤ 2 →
      ((fesRun 0 2 e fesInit (List.replicate (2 + 1) c)).map Prod.snd).getD
          i false = decide (i = 2))) :=
  ⟨by norm_num, fairness_new_best_policy 2 (by norm_num)⟩

/-- C7 counterexample: with patience 1, the trace on metric values
`[1, 1, 1/2]` stops at index 1 but the improving value `1/2` at index 2
resets the bad count to 0 and `step` returns false again — the
controller does revert to a non-stopped state. -/
theorem fairness_stop_not_terminal_cex :
    (fesRun 0 1 0 fesInit [1, 1, 1/2]).map Prod.snd = [false, true, false] ∧
    ∀ r ∈ fesRun 0 1 0 fesInit [1, 1, 1/2], r.2 = false → r.1.numBadEpochs = 0 := by
  constructor
  · norm_num [fesRun, fesStep, fesInit, improvesB]
  · intro r hr
    norm_num [fesRun, fesStep, fesInit, improvesB] at hr
    rcases hr with h | h | h <;> rw [h] <;> intro h2
    · rfl
    · cases h2
    · rfl

/-- C7 amended: a signalled stop is not latched — from any state that
has reached `num_bad_epochs ≥ patience` (with `patience ≥ 1`), the next
`step` returns false precisely when its metric value improves on the
stored best (which also resets the bad count); with non-improving
values it keeps returning true. -/
theorem fairness_stop_latch_iff_improvement (δ : ℚ) (p : ℕ) (hp : 1 ≤ p)
    (e : ℕ) (v : ℚ) (st : FESState) (hstop : p ≤ st.numBadEpochs) :
    ((fesStep δ p e v st).2 = false ↔ improvesB δ v st.bestMetric = true) := by
  unfold fesStep
  by_cases h : improvesB δ v st.bestMetric = true
  · rw [h, if_pos rfl, if_neg (show ¬ p ≤ 0 by omega)]
    simp [h]
  · rw [Bool.not_eq_true] at h
    rw [h, if_neg Bool.false_ne_true,
      if_pos (show p ≤ st.numBadEpochs + 1 by omega)]
    simp [h]

/-- Witness for C7's amended theorem: a stopped controller un-stops on
the improving value 0. -/
theorem fairness_stop_latch_iff_improvement_witness :
    1 ≤ 1 ∧ 1 ≤ (FESState.mk (some 1) 1 (some 0)).numBadEpochs ∧
    ((fesStep 0 1 5 0 (FESState.mk (some 1) 1 (some 0))).2 = false ↔
      improvesB 0 0 (FESState.mk (some 1) 1 (some 0)).bestMetric = true) :=
  ⟨le_refl 1, le_refl 1,
    fairness_stop_latch_iff_improvement 0 1 (le_refl 1) 5 0
      (FESState.mk (some 1) 1 (some 0)) (le_refl 1)⟩

/-- The rows `(y_true[i], y_pred[i], sensitive[i])` selected by the mask
`sensitive_attr == g` (fairness_early_stopping.py:49). -/
def groupMembers (yt yp s : List ℤ) (g : ℤ) : List ((ℤ × ℤ) × ℤ) :=
  ((yt.zip yp).zip s).filter (fun p => p.2 = g)

/-- Error rate of one group (fairness_early_stopping.py:50-53):
`np.mean(y_true[idx] != y_pred[idx])`, with rate `0.0` when the mask
selects nothing. -/
def groupRate (yt yp s : List ℤ) (g : ℤ) : ℚ :=
  let idx := groupMembers yt yp s g
  if idx.length = 0 then 0
  else (((idx.filter (fun p => ¬ p.1.1 = p.1.2)).length : ℚ)) / (idx.length : ℚ)

/-- Source `group_error_rates` (fairness_early_stopping.py:27-54):
`np.unique` (ascending sorted distinct values) plus one rate per group. -/
def group_error_rates (yt yp s : List ℤ) : List ℤ × List ℚ :=
  let gs := List.insertionSort (· ≤ ·) s.dedup
  (gs, gs.map (groupRate yt yp s))

/-- numpy `np.max` of a 1-D array: defined on nonempty input only. -/
def npMax : List ℚ → Option ℚ
  | [] => none
  | x :: xs => some (xs.foldl max x)

/-- numpy `np.min` of a 1-D array: defined on nonempty input only. -/
def npMin : List ℚ → Option ℚ
  | [] => none
  | x :: xs => some (xs.foldl min x)

/-- Source `demographic_parity_difference`
(fairness_early_stopping.py:57-65): max group rate minus min group
rate (`none` when `np.max`/`np.min` would raise on an empty array). -/
def demographic_parity_difference (yt yp s : List ℤ) : Option ℚ :=
  let rs := (group_error_rates yt yp s).2
  match npMax rs, npMin rs with
  | some M, some m => some (M - m)
  | _, _ => none

/-- A max-fold is bounded below by its starting value. -/
lemma init_le_foldl_max : ∀ (xs : List ℚ) (x : ℚ), x ≤ xs.foldl max x := by
  intro xs
  induction xs with
  | nil => intro x; exact le_refl x
  | cons a xs ih =>
    intro x
    rw [List.foldl_cons]
    exact le_trans (le_max_left x a) (ih (max x a))

/-- A max-fold returns one of the fold's inputs. -/
lemma foldl_max_mem : ∀ (xs : List ℚ) (x : ℚ), xs.foldl max x ∈ x :: xs := by
  intro xs
  induction xs with
  | nil => intro x; simp
  | cons a xs ih =>
    intro x
    rw [List.foldl_cons]
    rcases List.mem_cons.mp (ih (max x a)) with h | h
    · rw [h]
      rcases max_choice x a with hm | hm <;> rw [hm]
      · exact List.mem_cons.mpr (Or.inl rfl)
      · exact List.mem_cons_of_mem _ (List.mem_cons.mpr (Or.inl rfl))
    · exact List.mem_cons_of_mem _ (List.mem_cons_of_mem _ h)

/-- A max-fold dominates every one of the fold's inputs. -/
lemma le_foldl_max : ∀ (xs : List ℚ) (x y : ℚ), y ∈ x :: xs → y ≤ xs.foldl max x := by
  intro xs
  induction xs with
  | nil =>
    intro x y hy
    rw [List.mem_singleton] at hy
    subst hy
    rw [List.foldl_nil]
  | cons a xs ih =>
    intro x y hy
    rw [List.foldl_cons]
    rcases List.mem_cons.mp hy with h | h
    · subst h
      exact le_trans (le_max_left y a) (init_le_foldl_max xs (max y a))
    · rcases List.mem_cons.mp h with h2 | h2
      · subst h2
        exact le_trans (le_max_right x y) (init_le_foldl_max xs (max x y))
      · exact ih (max x a) y (List.mem_cons_of_mem _ h2)

/-- A min-fold is bounded above by its starting value. -/
lemma foldl_min_le_init : ∀ (xs : List ℚ) (x : ℚ), xs.foldl min x ≤ x := by
  intro xs
  induction xs with
  | nil => intro x; exact le_refl x
  | cons a xs ih =>
    intro x
    rw [List.foldl_cons]
    exact le_trans (ih (min x a)) (min_le_left x a)

/-- A min-fold returns one of the fold's inputs. -/
lemma foldl_min_mem : ∀ (xs : List ℚ) (x : ℚ), xs.foldl min x ∈ x :: xs := by
  intro xs
  induction xs with
  | nil => intro x; simp
  | cons a xs ih =>
    intro x
    rw [List.foldl_cons]
    rcases List.mem_cons.mp (ih (min x a)) with h | h
    · rw [h]
      rcases min_choice x a with hm | hm <;> rw [hm]
      · exact List.mem_cons.mpr (Or.inl rfl)
      · exact List.mem_cons_of_mem _ (List.mem_cons.mpr (Or.inl rfl))
    · exact List.mem_cons_of_mem _ (List.mem_cons_of_mem _ h)

/-- A min-fold is below every one of the fold's inputs. -/
lemma foldl_min_le : ∀ (xs : List ℚ) (x y : ℚ), y ∈ x :: xs → xs.foldl min x ≤ y := by
  intro xs
  induction xs with
  | nil =>
    intro x y hy
    rw [List.mem_singleton] at hy
    subst hy
    rw [List.foldl_nil]
  | cons a xs ih =>
    intro x y hy
    rw [List.foldl_cons]
    rcases List.mem_cons.mp hy with h | h
    · subst h
      exact le_trans (foldl_min_le_init xs (min y a)) (min_le_left y a)
    · rcases List.mem_cons.mp h with h2 | h2
      · subst h2
        exact le_trans (foldl_min_le_init xs (min x y)) (min_le_right x y)
      · exact ih (min x a) y (List.mem_cons_of_mem _ h2)

/-- The sorted deduplication used by `np.unique` is strictly sorted. -/
lemma sorted_lt_unique (l : List ℤ) :
    List.Sorted (· < ·) (List.insertionSort (· ≤ ·) l.dedup) := by
  have hs : List.Sorted (· ≤ ·) (List.insertionSort (· ≤ ·) l.dedup) :=
    List.sorted_insertionSort _ _
  have hn : (List.insertionSort (· ≤ ·) l.dedup).Nodup :=
    (List.perm_insertionSort _ _).nodup_iff.mpr l.nodup_dedup
  exact hs.lt_of_le hn

/-- C8: `group_error_rates` returns the distinct sensitive values in
strictly ascending order with one rate per group, an empty group
contributing rate 0; `demographic_parity_difference` is the maximal
group rate minus the minimal one, and on two groups with rates 1/5 and
1/2 it is exactly 3/10. -/
theorem fairness_metrics_spec :
    (∀ (yt yp s : List ℤ), yt.length = yp.length → yp.length = s.length →
      List.Sorted (· < ·) (group_error_rates yt yp s).1 ∧
      (group_error_rates yt yp s).2.length = (group_error_rates yt yp s).1.length ∧
      ∀ g : ℤ, (groupMembers yt yp s g).length = 0 → groupRate yt yp s g = 0) ∧
    (∀ (yt yp s : List ℤ) (M m : ℚ),
      npMax (group_error_rates yt yp s).2 = some M →
      npMin (group_error_rates yt yp s).2 = some m →
      M ∈ (group_error_rates yt yp s).2 ∧ m ∈ (group_error_rates yt yp s).2 ∧
      (∀ r ∈ (group_error_rates yt yp s).2, m ≤ r ∧ r ≤ M) ∧
      demographic_parity_difference yt yp s = some (M - m)) ∧
    demographic_parity_difference
      [0, 0, 0, 0, 0, 0, 0, 0, 0, 0, 0, 0, 0, 0, 0]
      [1, 0, 0, 0, 0, 1, 1, 1, 1, 1, 0, 0, 0, 0, 0]
      [0, 0, 0, 0, 0, 1, 1, 1, 1, 1, 1, 1, 1, 1, 1] = some (3/10) := by
  refine ⟨?_, ?_, ?_⟩
  · intro yt yp s _ _
    refine ⟨sorted_lt_unique s, by simp [group_error_rates], ?_⟩
    intro g hg
    simp only [groupRate]
    rw [if_pos hg]
  · intro yt yp s M m hM hm
    rcases hrs : (group_error_rates yt yp s).2 with _ | ⟨r, rs⟩
    · rw [hrs] at hM; cases hM
    · rw [hrs] at hM hm
      simp only [npMax] at hM
      simp only [npMin] at hm
      have hM2 := Option.some.inj hM
      have hm2 := Option.some.inj hm
      refine ⟨hM2 ▸ foldl_max_mem rs r, hm2 ▸ foldl_min_mem rs r, ?_, ?_⟩
      · intro u hu
        exact ⟨hm2 ▸ foldl_min_le rs r u hu, hM2 ▸ le_foldl_max rs r u hu⟩
      · simp only [demographic_parity_difference]
        rw [hrs]
        simp only [npMax, npMin, hM2, hm2]
  · have hgs : List.insertionSort (· ≤ ·)
        (([0, 0, 0, 0, 0, 1, 1, 1, 1, 1, 1, 1, 1, 1, 1] : List ℤ).dedup) =
        [0, 1] := by decide
    have hl0 : (groupMembers
        [0, 0, 0, 0, 0, 0, 0, 0, 0, 0, 0, 0, 0, 0, 0]
        [1, 0, 0, 0, 0, 1, 1, 1, 1, 1, 0, 0, 0, 0, 0]
        [0, 0, 0, 0, 0, 1, 1, 1, 1, 1, 1, 1, 1, 1, 1] 0).length = 5 := by decide
    have he0 : ((groupMembers
        [0, 0, 0, 0, 0, 0, 0, 0, 0, 0, 0, 0, 0, 0, 0]
        [1, 0, 0, 0, 0, 1, 1, 1, 1, 1, 0, 0, 0, 0, 0]
        [0, 0, 0, 0, 0, 1, 1, 1, 1, 1, 1, 1, 1, 1, 1] 0).filter
          (fun p => ¬ p.1.1 = p.1.2)).length = 1 := by decide
    have hl1 : (groupMembers
        [0, 0, 0, 0, 0, 0, 0, 0, 0, 0, 0, 0, 0, 0, 0]
        [1, 0, 0, 0, 0, 1, 1, 1, 1, 1, 0, 0, 0, 0, 0]
        [0, 0, 0, 0, 0, 1, 1, 1, 1, 1, 1, 1, 1, 1, 1] 1).length = 10 := by decide
    have he1 : ((groupMembers
        [0, 0, 0, 0, 0, 0, 0, 0, 0, 0, 0, 0, 0, 0, 0]
        [1, 0, 0, 0, 0, 1, 1, 1, 1, 1, 0, 0, 0, 0, 0]
        [0, 0, 0, 0, 0, 1, 1, 1, 1, 1, 1, 1, 1, 1, 1] 1).filter
          (fun p => ¬ p.1.1 = p.1.2)).length = 5 := by decide
    have hr0 : groupRate
        [0, 0, 0, 0, 0, 0, 0, 0, 0, 0, 0, 0, 0, 0, 0]
        [1, 0, 0, 0, 0, 1, 1, 1, 1, 1, 0, 0, 0, 0, 0]
        [0, 0, 0, 0, 0, 1, 1, 1, 1, 1, 1, 1, 1, 1, 1] 0 = 1/5 := by
      simp only [groupRate, hl0, he0]
      norm_num
    have hr1 : groupRate
        [0, 0, 0, 0, 0, 0, 0, 0, 0, 0, 0, 0, 0, 0, 0]
        [1, 0, 0, 0, 0, 1, 1, 1, 1, 1, 0, 0, 0, 0, 0]
        [0, 0, 0, 0, 0, 1, 1, 1, 1, 1, 1, 1, 1, 1, 1] 1 = 1/2 := by
      simp only [groupRate, hl1, he1]
      norm_num
    simp only [demographic_parity_difference, group_error_rates, hgs,
      List.map_cons, List.map_nil, hr0, hr1, npMax, npMin, List.foldl_cons,
      List.foldl_nil]
    norm_num

/-- Witness for C8 at a two-group input of equal lengths. -/
theorem fairness_metrics_spec_witness :
    ([0, 1] : List ℤ).length = ([1, 1] : List ℤ).length ∧
    ([1, 1] : List ℤ).length = ([2, 3] : List ℤ).length ∧
    (List.Sorted (· < ·) (group_error_rates [0, 1] [1, 1] [2, 3]).1 ∧
     (group_error_rates [0, 1] [1, 1] [2, 3]).2.length =
       (group_error_rates [0, 1] [1, 1] [2, 3]).1.length ∧
     ∀ g : ℤ, (groupMembers [0, 1] [1, 1] [2, 3] g).length = 0 →
       groupRate [0, 1] [1, 1] [2, 3] g = 0) :=
  ⟨rfl, rfl, fairness_metrics_spec.1 [0, 1] [1, 1] [2, 3] rfl rfl⟩

/-- One model parameter as seen through `model.named_parameters()`:
a stable name, the `requires_grad` flag, and an optional current
gradient (component_early_stopping.py:66-70). -/
structure CParam where
  name : String
  requiresGrad : Bool
  grad : Option Vec
deriving DecidableEq

/-- State of `ComponentEarlyStopping`: the monitored parameters, the
gradient-norm threshold, and the cumulative `frozen_params` list
(component_early_stopping.py:45-49). -/
structure CES where
  params : List CParam
  threshold : ℚ
  frozenParams : List String
deriving DecidableEq

/-- Rational decision of the source's float comparison
`param.grad.norm().item() < self.threshold`: the Euclidean norm is
irrational in general, so the comparison is decided on its square
(`normSqLt_iff` proves the equivalence). -/
def normSqLt (g : Vec) (c : ℚ) : Bool :=
  decide (0 < c) && decide (sumSq g < c ^ 2)

/-- The squared decision procedure agrees with the real-number norm
comparison. -/
lemma normSqLt_iff (g : Vec) (c : ℚ) :
    normSqLt g c = true ↔ Real.sqrt ((sumSq g : ℚ) : ℝ) < ((c : ℚ) : ℝ) := by
  unfold normSqLt
  rw [Bool.and_eq_true, decide_eq_true_eq, decide_eq_true_eq]
  constructor
  · rintro ⟨h1, h2⟩
    have hc : (0 : ℝ) < (c : ℝ) := by exact_mod_cast h1
    rw [Real.sqrt_lt' hc]
    exact_mod_cast h2
  · intro h
    have hc : (0 : ℝ) < (c : ℝ) := lt_of_le_of_lt (Real.sqrt_nonneg _) h
    rw [Real.sqrt_lt' hc] at h
    exact ⟨by exact_mod_cast hc, by exact_mod_cast h⟩

/-- The body of the `named_parameters` loop of
`ComponentEarlyStopping.apply` (component_early_stopping.py:66-77) on
one parameter: skip frozen or gradient-less entries, freeze (and name)
entries whose gradient norm is below the threshold. -/
def applyStep (threshold : ℚ) (p : CParam) : CParam × Option String :=
  if p.requiresGrad = false then (p, none)
  else
    match p.grad with
    | none => (p, none)
    | some g =>
      if normSqLt g threshold then ({ p with requiresGrad := false }, some p.name)
      else (p, none)

/-- Source `ComponentEarlyStopping.apply`
(component_early_stopping.py:51-78): run `applyStep` over all
parameters, extend the cumulative frozen list, return the newly frozen
names. -/
def CES.applyFreeze (s : CES) : CES × List String :=
  let results := s.params.map (applyStep s.threshold)
  let newly := results.filterMap Prod.snd
  ({ s with params := results.map Prod.fst,
            frozenParams := s.frozenParams ++ newly }, newly)

/-- Source `ComponentEarlyStopping.reset`
(component_early_stopping.py:80-85): re-enable every non-trainable
parameter and clear the frozen list. -/
def CES.reset (s : CES) : CES :=
  { s with
    params := s.params.map (fun p =>
      if p.requiresGrad = false then { p with requiresGrad := true } else p),
    frozenParams := [] }

/-- C9: a frozen parameter (`requires_grad = false`) is left untouched
by `apply` and contributes nothing to the newly-frozen names; every
newly-frozen name comes from a parameter that was still trainable, had
a gradient, and whose gradient norm was below the threshold; `apply`
only ever appends to the cumulative frozen list; and after `reset` the
frozen list is empty and every parameter is trainable (hence eligible
for freezing again). -/
theorem component_freeze_spec (s : CES) :
    (∀ p ∈ s.params, p.requiresGrad = false →
      applyStep s.threshold p = (p, none)) ∧
    (∀ n ∈ (CES.applyFreeze s).2, ∃ p, p ∈ s.params ∧
      p.requiresGrad = true ∧ ∃ g, p.grad = some g ∧
      normSqLt g s.threshold = true ∧ n = p.name) ∧
    (CES.applyFreeze s).1.frozenParams =
      s.frozenParams ++ (CES.applyFreeze s).2 ∧
    (CES.reset s).frozenParams = [] ∧
    (∀ p ∈ (CES.reset s).params, p.requiresGrad = true) := by
  refine ⟨?_, ?_, rfl, rfl, ?_⟩
  · intro p _ h
    unfold applyStep
    rw [if_pos h]
  · intro n hn
    simp only [CES.applyFreeze] at hn
    rw [List.filterMap_map, List.mem_filterMap] at hn
    obtain ⟨p, hp, hpn⟩ := hn
    simp only [Function.comp_apply] at hpn
    refine ⟨p, hp, ?_⟩
    by_cases h1 : p.requiresGrad = false
    · unfold applyStep at hpn
      rw [if_pos h1] at hpn
      cases hpn
    · have h1t : p.requiresGrad = true := by
        rw [← Bool.not_eq_false]; exact h1
      cases hg : p.grad with
      | none =>
        unfold applyStep at hpn
        rw [if_neg h1, hg] at hpn
        cases hpn
      | some g =>
        by_cases h2 : normSqLt g s.threshold = true
        · unfold applyStep at hpn
          rw [if_neg h1, hg] at hpn
          simp only [h2, if_true] at hpn
          exact ⟨h1t, g, rfl, h2, (Option.some.inj hpn).symm⟩
        · unfold applyStep at hpn
          rw [if_neg h1, hg] at hpn
          simp only [Bool.not_eq_true] at h2
          simp only [h2, Bool.false_eq_true, if_false] at hpn
          cases hpn
  · intro p hp
    simp only [CES.reset, List.mem_map] at hp
    obtain ⟨q, _, rfl⟩ := hp
    by_cases hq : q.requiresGrad = false
    · rw [if_pos hq]
    · rw [if_neg hq, ← Bool.not_eq_false]
      exact hq

/-- Witness for C9: a concrete frozen parameter is skipped, and a
concrete reset clears the frozen list. -/
theorem component_freeze_spec_witness :
    applyStep 1 (CParam.mk "w" false (some [1])) =
      (CParam.mk "w" false (some [1]), none) ∧
    (CES.reset (CES.mk [CParam.mk "w" false (some [1])] 1 ["w"])).frozenParams
      = [] := by
  refine ⟨?_, ?_⟩
  · exact (component_freeze_spec
      (CES.mk [CParam.mk "w" false (some [1])] 1 ["w"])).1
      (CParam.mk "w" false (some [1])) (List.mem_cons.mpr (Or.inl rfl)) rfl
  · exact (component_freeze_spec
      (CES.mk [CParam.mk "w" false (some [1])] 1 ["w"])).2.2.2.1

/-- Hyperparameters of `DPSGDEarlyStopping` (dp_early_stopping.py:55-62).
`noise_std` and `verbose` are omitted: the first only parametrizes the
distribution of the ambient RNG draws (which enter the embedding as the
realized stream `noise`), the second only prints. -/
structure DPConfig where
  lossFn : Vec → Vec → ℚ
  gradFn : Vec → List Vec → Vec → Vec
  lr : ℚ
  maxIter : ℕ
  patience : ℕ
  epsPerIter : ℚ

/-- Loop state of `DPSGDEarlyStopping.fit` (dp_early_stopping.py:86-92):
current `params`, `best_val` (`np.inf` modelled as `none`),
`best_params`, `val_history`, `bad_count`. -/
structure DPState where
  params : Vec
  bestVal : Option ℚ
  bestParams : Vec
  valHistory : List ℚ
  badCount : ℕ
deriving DecidableEq

/-- The updated parameter vector of one loop iteration
(dp_early_stopping.py:96-101): `params - lr * (grad + noise)` with the
realized ambient draw `noise t` standing for `np.random.normal`. -/
def dpParams1 (cfg : DPConfig) (noise : ℕ → Vec) (xtr : List Vec)
    (ytr : Vec) (t : ℕ) (st : DPState) : Vec :=
  vsub st.params (smul cfg.lr (vadd (cfg.gradFn st.params xtr ytr) (noise t)))

/-- The validation loss of one loop iteration
(dp_early_stopping.py:103-104): `loss_fn(x_val @ params, y_val)`. -/
def dpValLoss (cfg : DPConfig) (noise : ℕ → Vec) (xtr : List Vec)
    (ytr : Vec) (xval : List Vec) (yval : Vec) (t : ℕ) (st : DPState) : ℚ :=
  cfg.lossFn (matVec xval (dpParams1 cfg noise xtr ytr t st)) yval

/-- One iteration of the training loop (dp_early_stopping.py:94-112):
noisy gradient step, validation loss, best tracking, bad counting. -/
def dpStep (cfg : DPConfig) (noise : ℕ → Vec) (xtr : List Vec) (ytr : Vec)
    (xval : List Vec) (yval : Vec) (t : ℕ) (st : DPState) : DPState :=
  if (match st.bestVal with
      | none => true
      | some b => decide (dpValLoss cfg noise xtr ytr xval yval t st < b)) then
    ⟨dpParams1 cfg noise xtr ytr t st,
      some (dpValLoss cfg noise xtr ytr xval yval t st),
      dpParams1 cfg noise xtr ytr t st,
      st.valHistory ++ [dpValLoss cfg noise xtr ytr xval yval t st], 0⟩
  else
    ⟨dpParams1 cfg noise xtr ytr t st, st.bestVal, st.bestParams,
      st.valHistory ++ [dpValLoss cfg noise xtr ytr xval yval t st],
      st.badCount + 1⟩

/-- First-iteration shape of `dpStep`: an unset best is always beaten. -/
lemma dpStep_eq_none (cfg : DPConfig) (noise : ℕ → Vec) (xtr : List Vec)
    (ytr : Vec) (xval : List Vec) (yval : Vec) (t : ℕ) (st : DPState)
    (hb : st.bestVal = none) :
    dpStep cfg noise xtr ytr xval yval t st =
      ⟨dpParams1 cfg noise xtr ytr t st,
        some (dpValLoss cfg noise xtr ytr xval yval t st),
        dpParams1 cfg noise xtr ytr t st,
        st.valHistory ++ [dpValLoss cfg noise xtr ytr xval yval t st], 0⟩ := by
  unfold dpStep
  rw [hb]
  rfl

/-- Improving-iteration shape of `dpStep`. -/
lemma dpStep_eq_improve (cfg : DPConfig) (noise : ℕ → Vec) (xtr : List Vec)
    (ytr : Vec) (xval : List Vec) (yval : Vec) (t : ℕ) (st : DPState)
    (b : ℚ) (hb : st.bestVal = some b)
    (hlt : dpValLoss cfg noise xtr ytr xval yval t st < b) :
    dpStep cfg noise xtr ytr xval yval t st =
      ⟨dpParams1 cfg noise xtr ytr t st,
        some (dpValLoss cfg noise xtr ytr xval yval t st),
        dpParams1 cfg noise xtr ytr t st,
        st.valHistory ++ [dpValLoss cfg noise xtr ytr xval yval t st], 0⟩ := by
  unfold dpStep
  rw [hb]
  rw [if_pos (decide_eq_true hlt)]

/-- Non-improving-iteration shape of `dpStep`. -/
lemma dpStep_eq_bad (cfg : DPConfig) (noise : ℕ → Vec) (xtr : List Vec)
    (ytr : Vec) (xval : List Vec) (yval : Vec) (t : ℕ) (st : DPState)
    (b : ℚ) (hb : st.bestVal = some b)
    (hge : ¬ dpValLoss cfg noise xtr ytr xval yval t st < b) :
    dpStep cfg noise xtr ytr xval yval t st =
      ⟨dpParams1 cfg noise xtr ytr t st, st.bestVal, st.bestParams,
        st.valHistory ++ [dpValLoss cfg noise xtr ytr xval yval t st],
        st.badCount + 1⟩ := by
  unfold dpStep
  rw [hb]
  rw [if_neg (by rw [decide_eq_true_eq]; exact hge)]

/-- The `for t in range(max_iter)` loop with the `bad_count >= patience`
break (dp_early_stopping.py:94-114), returning the final state and the
value `t` holds after the loop (`stop_iter`). Only called with
`remaining = max_iter ≥ 1` and `t = 0`, so the `t - 1` of the exhausted
case is the last executed index `max_iter - 1`. -/
def dpRun (cfg : DPConfig) (noise : ℕ → Vec) (xtr : List Vec) (ytr : Vec)
    (xval : List Vec) (yval : Vec) : ℕ → ℕ → DPState → DPState × ℕ
  | 0, t, st => (st, t - 1)
  | r + 1, t, st =>
    let st1 := dpStep cfg noise xtr ytr xval yval t st
    if cfg.patience ≤ st1.badCount then (st1, t)
    else dpRun cfg noise xtr ytr xval yval r (t + 1) st1

/-- Initial loop state (dp_early_stopping.py:85-92): zeros of size
`x_train.shape[1]` unless initial parameters are supplied; alias of the
initial `best_params` copy; empty history; zero bad count. -/
def dpInit (xtr : List Vec) (initialParams : Option Vec) : DPState :=
  let numFeatures := (xtr.headD []).length
  let params0 :=
    match initialParams with
    | none => List.replicate numFeatures (0 : ℚ)
    | some p => p
  ⟨params0, none, params0, [], 0⟩

/-- Full-state version of `DPSGDEarlyStopping.fit`
(dp_early_stopping.py:64-122). With `max_iter = 0` the loop body never
runs and line 120 reads the unbound loop variable `t` (a Python
`NameError`), modelled as `none`. -/
def dpFitFull (cfg : DPConfig) (noise : ℕ → Vec) (xtr : List Vec)
    (ytr : Vec) (xval : List Vec) (yval : Vec)
    (initialParams : Option Vec) : Option (DPState × ℕ) :=
  if cfg.maxIter = 0 then none
  else some (dpRun cfg noise xtr ytr xval yval cfg.maxIter 0
    (dpInit xtr initialParams))

/-- Source `DPSGDEarlyStopping.fit` return value
(dp_early_stopping.py:120-122): `(best_params, stop_iter,
(stop_iter + 1) * eps_per_iter, val_history)`. -/
def DPSGDEarlyStopping.fit (cfg : DPConfig) (noise : ℕ → Vec)
    (xtr : List Vec) (ytr : Vec) (xval : List Vec) (yval : Vec)
    (initialParams : Option Vec) : Option (Vec × ℕ × ℚ × List ℚ) :=
  (dpFitFull cfg noise xtr ytr xval yval initialParams).map
    (fun r => (r.1.bestParams, r.2, ((r.2 : ℚ) + 1) * cfg.epsPerIter,
      r.1.valHistory))

/-- Invariant of the DP-SGD loop: whenever a best value is recorded it
is the minimum of the validation history so far and is the validation
loss of the recorded best parameters; no best is recorded only while
the history is empty. -/
def dpInv (cfg : DPConfig) (xval : List Vec) (yval : Vec)
    (st : DPState) : Prop :=
  match st.bestVal with
  | none => st.valHistory = []
  | some v => v ∈ st.valHistory ∧ (∀ u ∈ st.valHistory, v ≤ u) ∧
      cfg.lossFn (matVec xval st.bestParams) yval = v

/-- One loop iteration preserves the best-tracking invariant. -/
lemma dpStep_inv (cfg : DPConfig) (noise : ℕ → Vec) (xtr : List Vec)
    (ytr : Vec) (xval : List Vec) (yval : Vec) (t : ℕ) (st : DPState)
    (h : dpInv cfg xval yval st) :
    dpInv cfg xval yval (dpStep cfg noise xtr ytr xval yval t st) := by
  cases hb : st.bestVal with
  | none =>
    have hH : st.valHistory = [] := by
      unfold dpInv at h
      rwa [hb] at h
    rw [dpStep_eq_none cfg noise xtr ytr xval yval t st hb]
    show dpValLoss cfg noise xtr ytr xval yval t st ∈ _ ∧ _
    rw [hH, List.nil_append]
    refine ⟨List.mem_singleton.mpr rfl, ?_, rfl⟩
    intro u hu
    rw [List.mem_singleton.mp hu]
  | some b =>
    have hI : b ∈ st.valHistory ∧ (∀ u ∈ st.valHistory, b ≤ u) ∧
        cfg.lossFn (matVec xval st.bestParams) yval = b := by
      unfold dpInv at h
      rw [hb] at h
      exact h
    by_cases hlt : dpValLoss cfg noise xtr ytr xval yval t st < b
    · rw [dpStep_eq_improve cfg noise xtr ytr xval yval t st b hb hlt]
      show dpValLoss cfg noise xtr ytr xval yval t st ∈ _ ∧ _
      refine ⟨List.mem_append.mpr (Or.inr (List.mem_singleton.mpr rfl)),
        ?_, rfl⟩
      intro u hu
      rcases List.mem_append.mp hu with h2 | h2
      · exact le_trans (le_of_lt hlt) (hI.2.1 u h2)
      · rw [List.mem_singleton.mp h2]
    · rw [dpStep_eq_bad cfg noise xtr ytr xval yval t st b hb hlt]
      unfold dpInv
      rw [hb]
      refine ⟨List.mem_append.mpr (Or.inl hI.1), ?_, hI.2.2⟩
      intro u hu
      rcases List.mem_append.mp hu with h2 | h2
      · exact hI.2.1 u h2
      · rw [List.mem_singleton.mp h2]
        exact le_of_not_lt hlt

/-- The whole loop preserves the best-tracking invariant. -/
lemma dpRun_inv (cfg : DPConfig) (noise : ℕ → Vec) (xtr : List Vec)
    (ytr : Vec) (xval : List Vec) (yval : Vec) :
    ∀ (r t : ℕ) (st : DPState), dpInv cfg xval yval st →
      dpInv cfg xval yval (dpRun cfg noise xtr ytr xval yval r t st).1 := by
  intro r
  induction r with
  | zero => intro t st h; exact h
  | succ r ih =>
    intro t st h
    rw [dpRun]
    by_cases hp : cfg.patience ≤
        (dpStep cfg noise xtr ytr xval yval t st).badCount
    · rw [if_pos hp]
      exact dpStep_inv cfg noise xtr ytr xval yval t st h
    · rw [if_neg hp]
      exact ih (t + 1) _ (dpStep_inv cfg noise xtr ytr xval yval t st h)

/-- After at least one iteration the validation history is nonempty. -/
lemma dpRun_hist_ne (cfg : DPConfig) (noise : ℕ → Vec) (xtr : List Vec)
    (ytr : Vec) (xval : List Vec) (yval : Vec) :
    ∀ (r t : ℕ) (st : DPState), (1 ≤ r ∨ st.valHistory ≠ []) →
      (dpRun cfg noise xtr ytr xval yval r t st).1.valHistory ≠ [] := by
  intro r
  induction r with
  | zero =>
    intro t st h
    rcases h with h | h
    · omega
    · exact h
  | succ r ih =>
    intro t st _
    have hne : (dpStep cfg noise xtr ytr xval yval t st).valHistory ≠ [] := by
      unfold dpStep
      split <;> simp
    rw [dpRun]
    by_cases hp : cfg.patience ≤
        (dpStep cfg noise xtr ytr xval yval t st).badCount
    · rw [if_pos hp]
      exact hne
    · rw [if_neg hp]
      exact ih (t + 1) _ (Or.inr hne)

/-- Concrete DP-SGD configuration for counterexamples: one feature,
zero gradient, squared-prediction validation loss, `lr = 1`,
`max_iter = 2`, `patience = 1`, `eps_per_iter = 1/20`. -/
def dpCfgEx : DPConfig :=
  ⟨fun pred _ => sumSq pred, fun _ _ _ => [0], 1, 2, 1, 1/20⟩

/-- One realized ambient noise stream: draws [1], [2], [2], ... -/
def noiseA : ℕ → Vec := fun t => if t = 0 then [1] else [2]

/-- Another realized ambient noise stream: all draws [0]. -/
def noiseB : ℕ → Vec := fun _ => [0]

/-- C2 (refuting): with identical inputs and hyperparameters, two runs
of `fit` under different realized draws of the ambient process-global
RNG return different results — `fit` accepts no seed or RNG handle that
could fix the draws, so two identical calls in one process are not
reproducible. -/
theorem dp_fit_depends_on_ambient_noise :
    DPSGDEarlyStopping.fit dpCfgEx noiseA [[1]] [0] [[1]] [0] none ≠
    DPSGDEarlyStopping.fit dpCfgEx noiseB [[1]] [0] [[1]] [0] none := by
  have hA : DPSGDEarlyStopping.fit dpCfgEx noiseA [[1]] [0] [[1]] [0] none =
      some ([-1], 1, 1/10, [1, 9]) := by
    norm_num [DPSGDEarlyStopping.fit, dpFitFull, dpInit, dpRun, dpStep,
      dpParams1, dpValLoss, dpCfgEx, noiseA, vadd, vsub, smul, matVec, dot,
      sumSq]
  have hB : DPSGDEarlyStopping.fit dpCfgEx noiseB [[1]] [0] [[1]] [0] none =
      some ([0], 1, 1/10, [0, 0]) := by
    norm_num [DPSGDEarlyStopping.fit, dpFitFull, dpInit, dpRun, dpStep,
      dpParams1, dpValLoss, dpCfgEx, noiseB, vadd, vsub, smul, matVec, dot,
      sumSq]
  rw [hA, hB]
  simp

/-- C5: whatever `fit` returns, the returned parameters attain the
minimum validation loss over the recorded history (the loop tracks the
best snapshot separately); and on a concrete input the best snapshot
differs from the final iterate. -/
theorem dp_fit_returns_best_params :
    (∀ (cfg : DPConfig) (noise : ℕ → Vec) (xtr : List Vec) (ytr : Vec)
      (xval : List Vec) (yval : Vec) (ip : Option Vec) (bp : Vec) (si : ℕ)
      (te : ℚ) (vh : List ℚ),
      DPSGDEarlyStopping.fit cfg noise xtr ytr xval yval ip =
        some (bp, si, te, vh) →
      ∃ v, v ∈ vh ∧ (∀ u ∈ vh, v ≤ u) ∧
        cfg.lossFn (matVec xval bp) yval = v) ∧
    (∃ r, dpFitFull dpCfgEx noiseA [[1]] [0] [[1]] [0] none = some r ∧
      r.1.bestParams ≠ r.1.params) := by
  constructor
  · intro cfg noise xtr ytr xval yval ip bp si te vh h
    unfold DPSGDEarlyStopping.fit at h
    rw [Option.map_eq_some'] at h
    obtain ⟨r, hfull, hr⟩ := h
    simp only [Prod.mk.injEq] at hr
    obtain ⟨hbp, _, _, hvh⟩ := hr
    unfold dpFitFull at hfull
    by_cases hmi : cfg.maxIter = 0
    · rw [if_pos hmi] at hfull
      cases hfull
    · rw [if_neg hmi] at hfull
      have hr2 := Option.some.inj hfull
      have hinv := dpRun_inv cfg noise xtr ytr xval yval cfg.maxIter 0
        (dpInit xtr ip) (by exact rfl)
      have hne := dpRun_hist_ne cfg noise xtr ytr xval yval cfg.maxIter 0
        (dpInit xtr ip) (Or.inl (by omega))
      rw [hr2] at hinv hne
      unfold dpInv at hinv
      cases hbv : r.1.bestVal with
      | none => rw [hbv] at hinv; exact absurd hinv hne
      | some v =>
        rw [hbv] at hinv
        obtain ⟨hmem, hmin, hloss⟩ := hinv
        exact ⟨v, hvh ▸ hmem, fun u hu => hmin u (hvh ▸ hu), hbp ▸ hloss⟩
  · refine ⟨(⟨[-3], some 1, [-1], [1, 9], 1⟩, 1), ?_, by simp⟩
    norm_num [dpFitFull, dpInit, dpRun, dpStep, dpParams1, dpValLoss,
      dpCfgEx, noiseA, vadd, vsub, smul, matVec, dot, sumSq]

/-- Witness for C5: the universally quantified part applied at the
concrete run of `dpCfgEx` under the stream `noiseA`. -/
theorem dp_fit_returns_best_params_witness :
    DPSGDEarlyStopping.fit dpCfgEx noiseA [[1]] [0] [[1]] [0] none =
      some ([-1], 1, 1/10, [1, 9]) ∧
    (∃ v, v ∈ ([1, 9] : List ℚ) ∧ (∀ u ∈ ([1, 9] : List ℚ), v ≤ u) ∧
      dpCfgEx.lossFn (matVec [[1]] [-1]) [0] = v) := by
  have h : DPSGDEarlyStopping.fit dpCfgEx noiseA [[1]] [0] [[1]] [0] none =
      some ([-1], 1, 1/10, [1, 9]) := by
    norm_num [DPSGDEarlyStopping.fit, dpFitFull, dpInit, dpRun, dpStep,
      dpParams1, dpValLoss, dpCfgEx, noiseA, vadd, vsub, smul, matVec, dot,
      sumSq]
  exact ⟨h, dp_fit_returns_best_params.1 dpCfgEx noiseA [[1]] [0] [[1]] [0]
    none [-1] 1 (1/10) [1, 9] h⟩

/-- C6: the privacy ledger of `fit` is exactly
`(stop_iter + 1) * eps_per_iter`; that expression is non-decreasing in
`stop_iter` for `eps_per_iter ≥ 0`; and at `eps_per_iter = 1/20`,
`stop_iter = 9` it is exactly 1/2. -/
theorem dp_total_eps_ledger :
    (∀ (cfg : DPConfig) (noise : ℕ → Vec) (xtr : List Vec) (ytr : Vec)
      (xval : List Vec) (yval : Vec) (ip : Option Vec) (bp : Vec) (si : ℕ)
      (te : ℚ) (vh : List ℚ),
      DPSGDEarlyStopping.fit cfg noise xtr ytr xval yval ip =
        some (bp, si, te, vh) →
      te = ((si : ℚ) + 1) * cfg.epsPerIter) ∧
    (∀ (e : ℚ), 0 ≤ e → ∀ (s1 s2 : ℕ), s1 ≤ s2 →
      ((s1 : ℚ) + 1) * e ≤ ((s2 : ℚ) + 1) * e) ∧
    (((9 : ℕ) : ℚ) + 1) * (1/20) = 1/2 := by
  refine ⟨?_, ?_, by norm_num⟩
  · intro cfg noise xtr ytr xval yval ip bp si te vh h
    unfold DPSGDEarlyStopping.fit at h
    rw [Option.map_eq_some'] at h
    obtain ⟨r, _, hr⟩ := h
    simp only [Prod.mk.injEq] at hr
    obtain ⟨_, hsi, hte, _⟩ := hr
    rw [← hte, ← hsi]
  · intro e he s1 s2 h
    have h2 : ((s1 : ℚ) + 1) ≤ ((s2 : ℚ) + 1) := by
      have : (s1 : ℚ) ≤ (s2 : ℚ) := by exact_mod_cast h
      linarith
    exact mul_le_mul_of_nonneg_right h2 he

/-- Witness for C6 at the concrete run of `dpCfgEx` under `noiseA`
(stop at iteration 1, total epsilon 2/20 = 1/10). -/
theorem dp_total_eps_ledger_witness :
    DPSGDEarlyStopping.fit dpCfgEx noiseA [[1]] [0] [[1]] [0] none =
      some ([-1], 1, 1/10, [1, 9]) ∧
    (1/10 : ℚ) = (((1 : ℕ) : ℚ) + 1) * dpCfgEx.epsPerIter ∧
    (0 : ℚ) ≤ 1/20 ∧ 3 ≤ 7 ∧
    (((3 : ℕ) : ℚ) + 1) * (1/20) ≤ (((7 : ℕ) : ℚ) + 1) * (1/20) := by
  have h : DPSGDEarlyStopping.fit dpCfgEx noiseA [[1]] [0] [[1]] [0] none =
      some ([-1], 1, 1/10, [1, 9]) := by
    norm_num [DPSGDEarlyStopping.fit, dpFitFull, dpInit, dpRun, dpStep,
      dpParams1, dpValLoss, dpCfgEx, noiseA, vadd, vsub, smul, matVec, dot,
      sumSq]
  exact ⟨h, dp_total_eps_ledger.1 dpCfgEx noiseA [[1]] [0] [[1]] [0] none
      [-1] 1 (1/10) [1, 9] h,
    by norm_num, by norm_num,
    dp_total_eps_ledger.2.1 (1/20) (by norm_num) 3 7 (by norm_num)⟩

/-- Rational decision of the float comparison
`rel_change < tol` of proximal_early_stopping.py:140-143, where
`rel_change = ||diff|| / (||prev|| + 1e-12)`: with `A = ||diff||²` and
`S = ||prev||²` it decides `√A < tol * (√S + 1e-12)` exactly
(`relChangeLtTol_iff` proves the equivalence; the denominator
`√S + 1e-12` is positive, so dividing by it is the same as multiplying
the right-hand side). -/
def relChangeLtTol (A tol S : ℚ) : Bool :=
  if tol ≤ 0 then false
  else
    if A < (tol * (1 / 1000000000000)) ^ 2 then true
    else
      if A + (tol * (1 / 1000000000000)) ^ 2 - tol ^ 2 * S < 0 then true
      else
        decide ((A + (tol * (1 / 1000000000000)) ^ 2 - tol ^ 2 * S) ^ 2 <
          4 * (tol * (1 / 1000000000000)) ^ 2 * A)

/-- Algebraic core of the squared decision procedure: for nonnegative
`a` (playing the square root of `A = a²`) and `s` (the square root of
`S = s²`), the comparison `a < T·s + C` is equivalent to the
square-free case analysis the procedure performs. -/
lemma sqrt_lt_mul_add_iff (a s T C : ℝ) (ha : 0 ≤ a) (hs : 0 ≤ s)
    (hT : 0 < T) (hC : 0 < C) :
    a < T * s + C ↔
      (a ^ 2 < C ^ 2 ∨
       (¬ a ^ 2 < C ^ 2 ∧ a ^ 2 + C ^ 2 - T ^ 2 * s ^ 2 < 0) ∨
       (¬ a ^ 2 < C ^ 2 ∧ ¬ a ^ 2 + C ^ 2 - T ^ 2 * s ^ 2 < 0 ∧
        (a ^ 2 + C ^ 2 - T ^ 2 * s ^ 2) ^ 2 < 4 * C ^ 2 * a ^ 2)) := by
  have hTs : 0 ≤ T * s := mul_nonneg hT.le hs
  constructor
  · intro h
    by_cases h1 : a ^ 2 < C ^ 2
    · exact Or.inl h1
    · rw [not_lt] at h1
      have hCa : C ≤ a := le_of_pow_le_pow_left two_ne_zero ha h1
      by_cases h2 : a ^ 2 + C ^ 2 - T ^ 2 * s ^ 2 < 0
      · exact Or.inr (Or.inl ⟨not_lt.mpr h1, h2⟩)
      · rw [not_lt] at h2
        refine Or.inr (Or.inr ⟨not_lt.mpr h1, not_lt.mpr h2, ?_⟩)
        have e2 : a - C < T * s := by linarith
        have e2sq : (a - C) ^ 2 < (T * s) ^ 2 :=
          pow_lt_pow_left e2 (sub_nonneg.mpr hCa) two_ne_zero
        have e1 : a ^ 2 + C ^ 2 - T ^ 2 * s ^ 2 < 2 * C * a := by nlinarith [e2sq]
        have hapos : 0 < a := lt_of_lt_of_le hC hCa
        have e1sq : (a ^ 2 + C ^ 2 - T ^ 2 * s ^ 2) ^ 2 < (2 * C * a) ^ 2 :=
          pow_lt_pow_left e1 h2 two_ne_zero
        nlinarith [e1sq]
  · rintro (h1 | ⟨_, h2⟩ | ⟨h1, h2, h3⟩)
    · have hac : a < C := lt_of_pow_lt_pow_left 2 hC.le h1
      nlinarith [hTs]
    · have h4 : a ^ 2 < (T * s) ^ 2 := by nlinarith [sq_nonneg C]
      have : a < T * s := lt_of_pow_lt_pow_left 2 hTs h4
      linarith
    · rw [not_lt] at h1 h2
      have hCa : C ≤ a := le_of_pow_le_pow_left two_ne_zero ha h1
      have hapos : 0 < a := lt_of_lt_of_le hC hCa
      have h4 : (a ^ 2 + C ^ 2 - T ^ 2 * s ^ 2) ^ 2 < (2 * C * a) ^ 2 := by
        nlinarith [h3]
      have e1 : a ^ 2 + C ^ 2 - T ^ 2 * s ^ 2 < 2 * C * a :=
        lt_of_pow_lt_pow_left 2 (by positivity) h4
      have e2sq : (a - C) ^ 2 < (T * s) ^ 2 := by nlinarith [e1]
      have e2 : a - C < T * s := lt_of_pow_lt_pow_left 2 hTs e2sq
      linarith

/-- The squared decision procedure agrees with the real-number
relative-change comparison. -/
lemma relChangeLtTol_iff (A tol S : ℚ) (hA : 0 ≤ A) (hS : 0 ≤ S) :
    relChangeLtTol A tol S = true ↔
      Real.sqrt ((A : ℚ) : ℝ) <
        ((tol : ℚ) : ℝ) * (Real.sqrt ((S : ℚ) : ℝ) + 1 / 1000000000000) := by
  by_cases h1 : tol ≤ 0
  · unfold relChangeLtTol
    rw [if_pos h1]
    refine iff_of_false Bool.false_ne_true (not_lt.mpr ?_)
    have h1' : ((tol : ℚ) : ℝ) ≤ 0 := by exact_mod_cast h1
    have hs0 := Real.sqrt_nonneg ((S : ℚ) : ℝ)
    have ha0 := Real.sqrt_nonneg ((A : ℚ) : ℝ)
    nlinarith
  · push_neg at h1
    have hA' : (0 : ℝ) ≤ ((A : ℚ) : ℝ) := by exact_mod_cast hA
    have hS' : (0 : ℝ) ≤ ((S : ℚ) : ℝ) := by exact_mod_cast hS
    have hT' : (0 : ℝ) < ((tol : ℚ) : ℝ) := by exact_mod_cast h1
    have hb : relChangeLtTol A tol S = true ↔
        (A < (tol * (1 / 1000000000000)) ^ 2 ∨
         (¬ A < (tol * (1 / 1000000000000)) ^ 2 ∧
          A + (tol * (1 / 1000000000000)) ^ 2 - tol ^ 2 * S < 0) ∨
         (¬ A < (tol * (1 / 1000000000000)) ^ 2 ∧
          ¬ A + (tol * (1 / 1000000000000)) ^ 2 - tol ^ 2 * S < 0 ∧
          (A + (tol * (1 / 1000000000000)) ^ 2 - tol ^ 2 * S) ^ 2 <
            4 * (tol * (1 / 1000000000000)) ^ 2 * A)) := by
      unfold relChangeLtTol
      rw [if_neg (not_le.mpr h1)]
      by_cases h2 : A < (tol * (1 / 1000000000000)) ^ 2
      · rw [if_pos h2]
        exact iff_of_true rfl (Or.inl h2)
      · rw [if_neg h2]
        by_cases h3 : A + (tol * (1 / 1000000000000)) ^ 2 - tol ^ 2 * S < 0
        · rw [if_pos h3]
          exact iff_of_true rfl (Or.inr (Or.inl ⟨h2, h3⟩))
        · rw [if_neg h3, decide_eq_true_eq]
          constructor
          · intro h4
            exact Or.inr (Or.inr ⟨h2, h3, h4⟩)
          · rintro (h | ⟨_, hh⟩ | ⟨_, _, h4⟩)
            · exact absurd h h2
            · exact absurd hh h3
            · exact h4
    have hC2 : (0 : ℝ) < ((tol * (1 / 1000000000000) : ℚ) : ℝ) := by
      exact_mod_cast mul_pos h1 (show (0 : ℚ) < 1 / 1000000000000 by norm_num)
    have key := sqrt_lt_mul_add_iff (Real.sqrt ((A : ℚ) : ℝ))
      (Real.sqrt ((S : ℚ) : ℝ)) ((tol : ℚ) : ℝ)
      ((tol * (1 / 1000000000000) : ℚ) : ℝ) (Real.sqrt_nonneg _)
      (Real.sqrt_nonneg _) hT' hC2
    rw [Real.sq_sqrt hA', Real.sq_sqrt hS'] at key
    have hrhs : ((tol : ℚ) : ℝ) * Real.sqrt ((S : ℚ) : ℝ) +
        ((tol * (1 / 1000000000000) : ℚ) : ℝ) =
        ((tol : ℚ) : ℝ) * (Real.sqrt ((S : ℚ) : ℝ) + 1 / 1000000000000) := by
      push_cast
      ring
    rw [hrhs] at key
    have c1 : ((A : ℚ) : ℝ) < ((tol * (1 / 1000000000000) : ℚ) : ℝ) ^ 2 ↔
        A < (tol * (1 / 1000000000000)) ^ 2 := by
      exact_mod_cast Iff.rfl
    have c2 : ((A : ℚ) : ℝ) + ((tol * (1 / 1000000000000) : ℚ) : ℝ) ^ 2 -
        ((tol : ℚ) : ℝ) ^ 2 * ((S : ℚ) : ℝ) < 0 ↔
        A + (tol * (1 / 1000000000000)) ^ 2 - tol ^ 2 * S < 0 := by
      exact_mod_cast Iff.rfl
    have c3 : (((A : ℚ) : ℝ) + ((tol * (1 / 1000000000000) : ℚ) : ℝ) ^ 2 -
        ((tol : ℚ) : ℝ) ^ 2 * ((S : ℚ) : ℝ)) ^ 2 <
        4 * ((tol * (1 / 1000000000000) : ℚ) : ℝ) ^ 2 * ((A : ℚ) : ℝ) ↔
        (A + (tol * (1 / 1000000000000)) ^ 2 - tol ^ 2 * S) ^ 2 <
          4 * (tol * (1 / 1000000000000)) ^ 2 * A := by
      exact_mod_cast Iff.rfl
    rw [hb, key, c1, c2, c3]

/-- Hyperparameters and data of `ProximalEarlyStopping`
(proximal_early_stopping.py:88-95); the optional callback is omitted
(it is a pure side effect that must not mutate solver state). -/
structure ProxConfig where
  design : List Vec
  response : Vec
  lam : ℚ
  stepSize : ℚ
  maxIter : ℕ
  tol : ℚ
  patience : ℕ

/-- Loop state of `ProximalEarlyStopping.fit`: the iterate `x`, the
recorded `obj_values` and `history`, the `patience_counter`, and
`prev_x` (proximal_early_stopping.py:97-101,120-121). -/
structure ProxState where
  x : Vec
  objValues : List ℚ
  history : List Vec
  patienceCounter : ℕ
  prevX : Vec
deriving DecidableEq

/-- Source `_objective` (proximal_early_stopping.py:103-106):
`0.5 * dot(residual, residual) + lam * sum(abs(x))`. -/
def pobjective (cfg : ProxConfig) (x : Vec) : ℚ :=
  let residual := vsub (matVec cfg.design x) cfg.response
  1/2 * dot residual residual + cfg.lam * (x.map (fun a => |a|)).sum

/-- The proximal-gradient update of one iteration
(proximal_early_stopping.py:124-128): `x ← prox(x - η·Aᵀ(Ax - y), λη)`. -/
def proxNewX (cfg : ProxConfig) (x : Vec) : Vec :=
  let grad := matTVec cfg.design (vsub (matVec cfg.design x) cfg.response)
    (cfg.design.headD []).length
  l1_proximal (vsub x (smul cfg.stepSize grad)) (cfg.lam * cfg.stepSize)

/-- One loop iteration of `fit` (proximal_early_stopping.py:123-146):
update the iterate, record objective and snapshot, update the
negligible-change patience counter (`prev_x` is updated by the caller
only when the loop continues, mirroring line 149 after the break). -/
def proxStepCore (cfg : ProxConfig) (st : ProxState) : ProxState :=
  let x1 := proxNewX cfg st.x
  let obj := pobjective cfg x1
  let pc := if relChangeLtTol (sumSq (vsub x1 st.prevX)) cfg.tol
      (sumSq st.prevX) then st.patienceCounter + 1 else 0
  ⟨x1, st.objValues ++ [obj], st.history ++ [x1], pc, st.prevX⟩

/-- The `for t in range(max_iter)` loop with the
`patience_counter >= patience` break (proximal_early_stopping.py:
123-149), returning the final state and the post-loop value of `t`. -/
def proxRun (cfg : ProxConfig) : ℕ → ℕ → ProxState → ProxState × ℕ
  | 0, t, st => (st, t - 1)
  | r + 1, t, st =>
    let st1 := proxStepCore cfg st
    if cfg.patience ≤ st1.patienceCounter then (st1, t)
    else proxRun cfg r (t + 1) { st1 with prevX := st1.x }

/-- Initial solver state (`__post_init__` plus line 121): zero iterate,
empty histories, `prev_x = x`. -/
def proxInit (cfg : ProxConfig) : ProxState :=
  ⟨List.replicate (cfg.design.headD []).length 0, [], [], 0,
    List.replicate (cfg.design.headD []).length 0⟩

/-- Source `ProximalEarlyStopping.fit`
(proximal_early_stopping.py:108-151), returning `(x, stop_iter,
obj_values)`. With `max_iter = 0` the loop body never runs and line 151
reads the unbound loop variable `t` (a Python `NameError`), modelled as
`none`. -/
def ProximalEarlyStopping.fit (cfg : ProxConfig) :
    Option (Vec × ℕ × List ℚ) :=
  if cfg.maxIter = 0 then none
  else
    let r := proxRun cfg cfg.maxIter 0 (proxInit cfg)
    some (r.1.x, r.2, r.1.objValues)

/-- A divergent configuration: `design = [[2]]`, `response = [1]`,
`lam = 1/10`, `step_size = 1` (far above the stability bound
`1/||AᵀA|| = 1/4`), `max_iter = 5`, `tol = 1/10000`, `patience = 5`. -/
def proxCfgDiv : ProxConfig := ⟨[[2]], [1], 1/10, 1, 5, 1/10000, 5⟩

/-- C3 (refuting silently-continued divergence is absent): on the
divergent configuration the objective strictly increases at every one
of the five iterations, yet `fit` runs to `max_iter` and returns
normally — no numerical-instability detection aborts the call. -/
theorem prox_fit_silent_divergence :
    ProximalEarlyStopping.fit proxCfgDiv =
      some ([1099/10], 4,
        [411/100, 1699/50, 5979/20, 26681/10, 2394771/100]) ∧
    List.Chain' (· < ·)
      [(411 : ℚ)/100, 1699/50, 5979/20, 26681/10, 2394771/100] := by
  constructor
  · norm_num [ProximalEarlyStopping.fit, proxRun, proxStepCore, proxNewX,
      proxInit, pobjective, proxCfgDiv, relChangeLtTol, l1_proximal, qsign,
      matVec, matTVec, vadd, vsub, smul, dot, sumSq, abs_of_nonneg, abs_of_nonpos]
  · norm_num

/-- C10: for both solvers, `fit` with `max_iter = 0` hits the unbound
post-loop read of `t` (returns `none`); with `max_iter ≥ 1` it always
returns a result. -/
theorem fit_zero_max_iter_unbound :
    (∀ (cfg : ProxConfig), cfg.maxIter = 0 →
      ProximalEarlyStopping.fit cfg = none) ∧
    (∀ (cfg : ProxConfig), 1 ≤ cfg.maxIter →
      (ProximalEarlyStopping.fit cfg).isSome = true) ∧
    (∀ (cfg : DPConfig) (noise : ℕ → Vec) (xtr : List Vec) (ytr : Vec)
      (xval : List Vec) (yval : Vec) (ip : Option Vec), cfg.maxIter = 0 →
      DPSGDEarlyStopping.fit cfg noise xtr ytr xval yval ip = none) ∧
    (∀ (cfg : DPConfig) (noise : ℕ → Vec) (xtr : List Vec) (ytr : Vec)
      (xval : List Vec) (yval : Vec) (ip : Option Vec), 1 ≤ cfg.maxIter →
      (DPSGDEarlyStopping.fit cfg noise xtr ytr xval yval ip).isSome
        = true) := by
  refine ⟨?_, ?_, ?_, ?_⟩
  · intro cfg h
    unfold ProximalEarlyStopping.fit
    rw [if_pos h]
  · intro cfg h
    unfold ProximalEarlyStopping.fit
    rw [if_neg (by omega)]
    rfl
  · intro cfg noise xtr ytr xval yval ip h
    unfold DPSGDEarlyStopping.fit dpFitFull
    rw [if_pos h]
    rfl
  · intro cfg noise xtr ytr xval yval ip h
    unfold DPSGDEarlyStopping.fit dpFitFull
    rw [if_neg (by omega)]
    rfl

/-- A zero-iteration proximal configuration. -/
def proxCfg0 : ProxConfig := ⟨[[2]], [1], 1/10, 1, 0, 1/10000, 5⟩

/-- A zero-iteration DP-SGD configuration. -/
def dpCfg0 : DPConfig :=
  ⟨fun pred _ => sumSq pred, fun _ _ _ => [0], 1, 0, 1, 1/20⟩

/-- Witness for C10 at concrete configurations with `max_iter` 0 and
`max_iter ≥ 1`. -/
theorem fit_zero_max_iter_unbound_witness :
    proxCfg0.maxIter = 0 ∧ ProximalEarlyStopping.fit proxCfg0 = none ∧
    1 ≤ proxCfgDiv.maxIter ∧
    (ProximalEarlyStopping.fit proxCfgDiv).isSome = true ∧
    dpCfg0.maxIter = 0 ∧
    DPSGDEarlyStopping.fit dpCfg0 noiseB [[1]] [0] [[1]] [0] none = none ∧
    1 ≤ dpCfgEx.maxIter ∧
    (DPSGDEarlyStopping.fit dpCfgEx noiseB [[1]] [0] [[1]] [0] none).isSome
      = true :=
  ⟨rfl, fit_zero_max_iter_unbound.1 proxCfg0 rfl,
    by decide, fit_zero_max_iter_unbound.2.1 proxCfgDiv (by decide),
    rfl, fit_zero_max_iter_unbound.2.2.1 dpCfg0 noiseB [[1]] [0] [[1]] [0]
      none rfl,
    by decide, fit_zero_max_iter_unbound.2.2.2 dpCfgEx noiseB [[1]] [0]
      [[1]] [0] none (by decide)⟩

end EarlyStopping
